import Mathlib

/-!
Verification of the NLP date parser of `react-native-nlp-calendar`
(`src/parser.ts`, `src/types.ts`).

The parser is a pure function over strings plus the current date, so it is
shallowly embedded here:

* text is modelled as `List Char` (the repository's inputs are ASCII; JS
  `toLowerCase`/`trim` are modelled on the ASCII range);
* the JS `Date` runtime is modelled by an epoch-day number (`Int`, days since
  1970-01-01 in the proleptic Gregorian calendar).  A JS `Date` additionally
  carries a time of day; the parser only ever reads calendar dates, so the
  clock reading `now` is a day number and the model works at UTC midnight.
  `Date`s whose time value exceeds the ECMAScript limit of 8.64e15 ms
  (100 000 000 days) are invalid, and `toISOString` throws on them — modelled
  with `Except`;
* every regular-expression of `parser.ts` is embedded as a dedicated
  backtracking matcher with JS semantics (leftmost match, greedy quantifiers,
  ordered alternation, `\b` word boundaries).

Numbers captured from digit strings are modelled exactly (`Nat`), not as
floats: `Number` on digit strings is exact below 2^53, and every branch of the
parser either stays far below that or overflows the `Date` range so hugely
that float rounding cannot change the outcome.
-/

namespace NLP

/-! ### Characters -/

/-- ASCII lowercasing of one character, as JS `toLowerCase` acts on ASCII. -/
def lowerChar (c : Char) : Char :=
  if 65 ≤ c.toNat ∧ c.toNat ≤ 90 then Char.ofNat (c.toNat + 32) else c

/-- Lowercase a whole text. -/
def lowerStr (s : List Char) : List Char := s.map lowerChar

/-- JS regex word characters, the `\w` class deciding `\b` boundaries. -/
def isWordChar (c : Char) : Bool :=
  (97 ≤ c.toNat && c.toNat ≤ 122) || (65 ≤ c.toNat && c.toNat ≤ 90) ||
    (48 ≤ c.toNat && c.toNat ≤ 57) || c.toNat = 95

/-- JS whitespace (`\s`, and the characters removed by `trim`), ASCII range. -/
def isSpaceChar (c : Char) : Bool :=
  c.toNat = 32 || c.toNat = 9 || c.toNat = 10 || c.toNat = 13 || c.toNat = 11 || c.toNat = 12

/-- Decimal digit test, as in the regex class `\d`. -/
def isDigitChar (c : Char) : Bool := 48 ≤ c.toNat && c.toNat ≤ 57

/-- Numeric value of a digit character. -/
def digitVal (c : Char) : Nat := c.toNat - 48

/-- JS `String.prototype.trim` (ASCII whitespace model). -/
def trimStr (s : List Char) : List Char :=
  ((s.dropWhile isSpaceChar).reverse.dropWhile isSpaceChar).reverse

/-! ### Decimal rendering (the `String(n)` / `padStart` used by the source) -/

/-- One decimal digit as a character. -/
def digitChar (n : Nat) : Char := Char.ofNat (48 + n % 10)

/-- Fueled digit accumulator; the fuel exceeds the digit count. -/
def natToCharsAux : Nat → Nat → List Char → List Char
  | 0, _, acc => acc
  | Nat.succ fuel, n, acc =>
    if n < 10 then digitChar n :: acc
    else natToCharsAux fuel (n / 10) (digitChar (n % 10) :: acc)

/-- Decimal rendering of a natural number, as JS `String(n)`. -/
def natToChars (n : Nat) : List Char := natToCharsAux (n + 1) n []

/-- JS `String(n).padStart(2, "0")`. -/
def pad2 (n : Nat) : List Char :=
  let s := natToChars n
  if s.length < 2 then '0' :: s else s

/-- Zero-pad a digit string on the left to length `k`. -/
def padTo (k : Nat) (s : List Char) : List Char :=
  List.replicate (k - s.length) '0' ++ s

/-- Four-digit year field of `toISOString`. -/
def pad4 (n : Nat) : List Char := padTo 4 (natToChars n)

/-- Six-digit year field of the extended-year `toISOString` format. -/
def pad6 (n : Nat) : List Char := padTo 6 (natToChars n)

/-! ### The civil (proleptic Gregorian) calendar — model of the JS `Date`
    internals.  `civilToDay` and `dayToCivil` are the standard epoch-day
    conversions (Euclidean division by positive constants is floor
    division, exactly the ECMAScript `MakeDay` arithmetic). -/

/-- Epoch day of the civil date `(y, m, d)`; `m` is 1-based and must lie in
    `1..12`, while `d` may lie outside `1..31` and then counts linearly from
    the month start, as ECMAScript `MakeDay` does. -/
def civilToDay (y m d : Int) : Int :=
  let y' := if m ≤ 2 then y - 1 else y
  let era := y' / 400
  let yoe := y' - era * 400
  let mp := (m + 9) % 12
  let doy := (153 * mp + 2) / 5 + d - 1
  let doe := yoe * 365 + yoe / 4 - yoe / 100 + doy
  era * 146097 + doe - 719468

/-- Civil date `(y, m, d)` (1-based month) of an epoch day. -/
def dayToCivil (t : Int) : Int × Int × Int :=
  let z := t + 719468
  let era := z / 146097
  let doe := z - era * 146097
  let yoe := (doe - doe / 1460 + doe / 36524 - doe / 146096) / 365
  let y := yoe + era * 400
  let doy := doe - (365 * yoe + yoe / 4 - yoe / 100)
  let mp := (5 * doy + 2) / 153
  let d := doy - (153 * mp + 2) / 5 + 1
  let m := mp + (if mp < 10 then 3 else -9)
  (if m ≤ 2 then y + 1 else y, m, d)

/-- JS `Date.prototype.getDay`: 1970-01-01 was a Thursday (4). -/
def weekdayOf (t : Int) : Int := (t + 4) % 7

/-- JS `Date.prototype.getFullYear` (UTC-midnight model). -/
def getFullYear (t : Int) : Int := (dayToCivil t).1

/-- The `new Date(year, monthIndex, day)` constructor: the two-digit-year
    quirk (0..99 means 1900..1999), month overflow carried into the year by
    floor division, day overflow resolved linearly.  Result: epoch day. -/
def jsMkDate (y m0 d : Int) : Int :=
  let yA := if 0 ≤ y ∧ y ≤ 99 then y + 1900 else y
  civilToDay (yA + m0 / 12) (m0 % 12 + 1) d

/-- ECMAScript time-value limit in whole days (8.64e15 ms). -/
def maxDays : Int := 100000000

/-- The date part of `toISOString` (`slice(0, 10)` of the full string): the
    year is 4 digits for years 0..9999 and the signed 6-digit extended form
    otherwise, in which case `slice(0, 10)` truncates inside the month/day. -/
def toISODateCore (t : Int) : List Char :=
  match dayToCivil t with
  | (y, m, d) =>
    if 0 ≤ y ∧ y ≤ 9999 then
      pad4 y.toNat ++ '-' :: pad2 m.toNat ++ '-' :: pad2 d.toNat
    else
      List.take 10
        ((if y < 0 then '-' :: pad6 (-y).toNat else '+' :: pad6 y.toNat)
          ++ '-' :: pad2 m.toNat ++ '-' :: pad2 d.toNat)

/-- `toISODate` of `parser.ts`: `d.toISOString().slice(0, 10)`.
    `toISOString` throws a `RangeError` on an invalid (out-of-range) date;
    the thrown exception is the `Except.error` case. -/
def toISODate (t : Int) : Except String String :=
  if t < -maxDays ∨ maxDays < t then .error "RangeError: Invalid time value"
  else .ok (String.mk (toISODateCore t))

example : toISODate 20259 = .ok "2025-06-20" := rfl
example : toISODate 0 = .ok "1970-01-01" := rfl
example : weekdayOf 20259 = 5 := rfl

/-! ### Generic regular-expression machinery

Each regex of `parser.ts` becomes a `try` function that attempts a match at
the current position.  A `try` function receives `prev` (whether the
character immediately before the position is a word character — the state
that decides `\b`) and the remaining lowered text, and returns the captures
together with the number of characters consumed.  `scanP` finds the leftmost
match, as `String.prototype.match` does; `replP` removes every match, as
`String.prototype.replace` with the `g` flag and an empty replacement. -/

/-- Match a literal, returning the rest of the text. -/
def litPfx : List Char → List Char → Option (List Char)
  | [], s => some s
  | _ :: _, [] => none
  | c :: w, d :: s => if d = c then litPfx w s else none

/-- Word boundary when the position follows a word character: the next
    character must be absent or not a word character. -/
def bdry : List Char → Bool
  | [] => true
  | c :: _ => !isWordChar c

/-- The regex `\s+`, greedy. -/
def sp1 : List Char → Option (List Char)
  | [] => none
  | c :: r => if isSpaceChar c then some (r.dropWhile isSpaceChar) else none

/-- Exactly one digit, with its value. -/
def dig1 : List Char → Option (Nat × List Char)
  | c :: r => if isDigitChar c then some (digitVal c, r) else none
  | [] => none

/-- Exactly two digits. -/
def dig2 (s : List Char) : Option (Nat × List Char) :=
  match dig1 s with
  | some (a, r) =>
    match dig1 r with
    | some (b, r2) => some (a * 10 + b, r2)
    | none => none
  | none => none

/-- Exactly four digits. -/
def dig4 (s : List Char) : Option (Nat × List Char) :=
  match dig2 s with
  | some (a, r) =>
    match dig2 r with
    | some (b, r2) => some (a * 100 + b, r2)
    | none => none
  | none => none

/-- The regex `\d+`, greedy, with its numeric value. -/
def digRun (s : List Char) : Option (Nat × List Char) :=
  match s.takeWhile isDigitChar with
  | [] => none
  | ds => some (ds.foldl (fun a c => a * 10 + digitVal c) 0, s.dropWhile isDigitChar)

/-- Characters consumed between a starting suffix and a remaining suffix. -/
def consumed (s r : List Char) : Nat := s.length - r.length

/-- Ordered choice, as regex alternation backtracks. -/
def orE {a : Type} : Option a → Option a → Option a
  | some x, _ => some x
  | none, b => b

/-- Leftmost-match scan of a pattern over the text. -/
def scanP {a : Type} (tryP : Bool → List Char → Option (a × Nat)) :
    Nat → Bool → List Char → Option a
  | 0, _, _ => none
  | Nat.succ fuel, prev, s =>
    match tryP prev s with
    | some (x, _) => some x
    | none =>
      match s with
      | [] => none
      | c :: r => scanP tryP fuel (isWordChar c) r

/-- Global replace-with-empty of a pattern.  The original text and its
    lowered copy are walked in lockstep (the `i` flag matches on the lowered
    copy; the removal happens on the original). -/
def replP {a : Type} (tryP : Bool → List Char → Option (a × Nat)) :
    Nat → Bool → List Char → List Char → List Char
  | 0, _, orig, _ => orig
  | Nat.succ fuel, prev, orig, low =>
    match tryP prev low with
    | some (_, n) =>
      replP tryP fuel
        (match (low.take n).getLast? with
         | some c => isWordChar c
         | none => prev)
        (orig.drop n) (low.drop n)
    | none =>
      match orig, low with
      | oc :: orest, lc :: lrest => oc :: replP tryP fuel (isWordChar lc) orest lrest
      | orig, _ => orig

/-! ### The concrete patterns of `parser.ts` -/

/-- The pattern `\b<word>\b` for a literal word. -/
def tryWord (w : List Char) (prev : Bool) (s : List Char) : Option (Unit × Nat) :=
  if prev then none
  else
    match litPfx w s with
    | some r => if bdry r then some ((), w.length) else none
    | none => none

/-- Whether `\b<word>\b` occurs anywhere in the text. -/
def hasWord (w : List Char) (s : List Char) : Bool :=
  (scanP (tryWord w) (s.length + 1) false s).isSome

/-- The regex `\bin\s+(\d+)\s+days?\b` of the relative resolver, with the
    captured count. -/
def tryInDays (prev : Bool) (s : List Char) : Option (Nat × Nat) :=
  if prev then none
  else
    match litPfx "in".data s with
    | none => none
    | some r1 =>
      match sp1 r1 with
      | none => none
      | some r2 =>
        match digRun r2 with
        | none => none
        | some (n, r3) =>
          match sp1 r3 with
          | none => none
          | some r4 =>
            match litPfx "day".data r4 with
            | none => none
            | some r5 =>
              match r5 with
              | 's' :: r6 => if bdry r6 then some (n, consumed s r6) else none
              | _ => if bdry r5 then some (n, consumed s r5) else none

/-- The weekday alternation of the source regex, in source order, paired with
    the `WEEKDAY_INDEX` values. -/
def weekdayAlts : List (List Char × Int) :=
  [("monday".data, 1), ("tuesday".data, 2), ("wednesday".data, 3), ("thursday".data, 4),
   ("friday".data, 5), ("saturday".data, 6), ("sunday".data, 0)]

/-- Ordered weekday-name alternation followed by `\b`. -/
def wdAlt : List (List Char × Int) → List Char → Option (Int × List Char)
  | [], _ => none
  | (w, i) :: rest, s =>
    match litPfx w s with
    | some r => if bdry r then some (i, r) else wdAlt rest s
    | none => wdAlt rest s

/-- The regex `\bnext\s+(monday|...|sunday)\b` of the relative resolver. -/
def tryNextWeekday (prev : Bool) (s : List Char) : Option (Int × Nat) :=
  if prev then none
  else
    match litPfx "next".data s with
    | none => none
    | some r1 =>
      match sp1 r1 with
      | none => none
      | some r2 =>
        match wdAlt weekdayAlts r2 with
        | some (i, r3) => some (i, consumed s r3)
        | none => none

/-- The title-stripping regex `\b(?:next\s+)?(?:monday|...|sunday)\b`: the
    optional greedy `next` branch is tried first. -/
def tryWdStrip (prev : Bool) (s : List Char) : Option (Unit × Nat) :=
  if prev then none
  else
    orE
      (match litPfx "next".data s with
       | some r1 =>
         match sp1 r1 with
         | some r2 =>
           match wdAlt weekdayAlts r2 with
           | some (_, r3) => some ((), consumed s r3)
           | none => none
         | none => none
       | none => none)
      (match wdAlt weekdayAlts s with
       | some (_, r) => some ((), consumed s r)
       | none => none)

/-- The title-stripping regex `\b(?:today|tomorrow|yesterday)\b`. -/
def tryRelWords (prev : Bool) (s : List Char) : Option (Unit × Nat) :=
  orE (tryWord "today".data prev s)
    (orE (tryWord "tomorrow".data prev s) (tryWord "yesterday".data prev s))

/-- The regex `\b(\d{4})-(\d{2})-(\d{2})\b` (ISO dates). -/
def tryISO (prev : Bool) (s : List Char) : Option ((Nat × Nat × Nat) × Nat) :=
  if prev then none
  else
    match dig4 s with
    | none => none
    | some (y, r1) =>
      match r1 with
      | '-' :: r2 =>
        match dig2 r2 with
        | some (m, r3) =>
          match r3 with
          | '-' :: r4 =>
            match dig2 r4 with
            | some (d, r5) => if bdry r5 then some ((y, m, d), consumed s r5) else none
            | none => none
          | _ => none
        | none => none
      | _ => none

/-- Tail of the US-numeric regex after the day digits: the optional
    `(?:\/(\d{4}))?` group, then `\b`; failure of the group backtracks to a
    boundary right after the day. -/
def usTail (s r : List Char) (m d : Nat) : Option ((Nat × Nat × Option Nat) × Nat) :=
  match r with
  | '/' :: r1 =>
    match dig4 r1 with
    | some (y, r2) =>
      if bdry r2 then some ((m, d, some y), consumed s r2)
      else some ((m, d, none), consumed s r)
    | none => some ((m, d, none), consumed s r)
  | _ => if bdry r then some ((m, d, none), consumed s r) else none

/-- Day part of the US-numeric regex: `(\d{1,2})` greedy with backtracking
    into the tail. -/
def usDay (s r1 : List Char) (m : Nat) : Option ((Nat × Nat × Option Nat) × Nat) :=
  orE
    (match dig2 r1 with
     | some (d, r2) => usTail s r2 m d
     | none => none)
    (match dig1 r1 with
     | some (d, r2) => usTail s r2 m d
     | none => none)

/-- The regex `\b(\d{1,2})\/(\d{1,2})(?:\/(\d{4}))?\b` (US numeric dates). -/
def tryUS (prev : Bool) (s : List Char) : Option ((Nat × Nat × Option Nat) × Nat) :=
  if prev then none
  else
    orE
      (match dig2 s with
       | some (m, r) =>
         match r with
         | '/' :: r1 => usDay s r1 m
         | _ => none
       | none => none)
      (match dig1 s with
       | some (m, r) =>
         match r with
         | '/' :: r1 => usDay s r1 m
         | _ => none
       | none => none)

/-- The month-name alternation of the source regexes, in source order, paired
    with the `MONTH_INDEX` values (0-based months). -/
def monthAlts : List (List Char × Nat) :=
  [("january".data, 0), ("february".data, 1), ("march".data, 2), ("april".data, 3),
   ("may".data, 4), ("june".data, 5), ("july".data, 6), ("august".data, 7),
   ("september".data, 8), ("october".data, 9), ("november".data, 10), ("december".data, 11),
   ("jan".data, 0), ("feb".data, 1), ("mar".data, 2), ("apr".data, 3), ("jun".data, 5),
   ("jul".data, 6), ("aug".data, 7), ("sep".data, 8), ("sept".data, 8), ("oct".data, 9),
   ("nov".data, 10), ("dec".data, 11)]

/-- The optional year group `(?:\s+(\d{4}))?` followed by `\b`; failure
    backtracks to a boundary at the current position. -/
def yrTail (r : List Char) : Option (Option Nat × List Char) :=
  match sp1 r with
  | some r1 =>
    match dig4 r1 with
    | some (y, r2) =>
      if bdry r2 then some (some y, r2)
      else if bdry r then some (none, r) else none
    | none => if bdry r then some (none, r) else none
  | none => if bdry r then some (none, r) else none

/-- Day and year part of the month-day regex after the month name and the
    whitespace: `(\d{1,2})` greedy, then the year tail. -/
def mdDay (s r1 : List Char) (mi : Nat) : Option ((Nat × Nat × Option Nat) × Nat) :=
  orE
    (match dig2 r1 with
     | some (d, r2) =>
       match yrTail r2 with
       | some (y, r3) => some ((mi, d, y), consumed s r3)
       | none => none
     | none => none)
    (match dig1 r1 with
     | some (d, r2) =>
       match yrTail r2 with
       | some (y, r3) => some ((mi, d, y), consumed s r3)
       | none => none
     | none => none)

/-- Ordered month-name alternation with full-pattern continuation for the
    `<MonthName> <Day> [<Year>]` regex. -/
def mdAlt (s : List Char) : List (List Char × Nat) → List Char → Option ((Nat × Nat × Option Nat) × Nat)
  | [], _ => none
  | (w, mi) :: rest, r =>
    match litPfx w r with
    | some r1 =>
      match (match sp1 r1 with
             | some r2 => mdDay s r2 mi
             | none => none) with
      | some x => some x
      | none => mdAlt s rest r
    | none => mdAlt s rest r

/-- The regex `\b(january|...|dec)\s+(\d{1,2})(?:\s+(\d{4}))?\b`. -/
def tryMonthDay (prev : Bool) (s : List Char) : Option ((Nat × Nat × Option Nat) × Nat) :=
  if prev then none else mdAlt s monthAlts s

/-- Ordered month-name alternation with the year tail, for the
    `<Day> <MonthName> [<Year>]` regex (captures day first). -/
def dmAlt (s : List Char) (d : Nat) :
    List (List Char × Nat) → List Char → Option ((Nat × Nat × Option Nat) × Nat)
  | [], _ => none
  | (w, mi) :: rest, r =>
    match litPfx w r with
    | some r1 =>
      match yrTail r1 with
      | some (y, r2) => some ((d, mi, y), consumed s r2)
      | none => dmAlt s d rest r
    | none => dmAlt s d rest r

/-- Day prefix of the day-month regex: `(\d{1,2})` greedy, then `\s+`, then
    the month alternation. -/
def dmFrom (s : List Char) (dp : Option (Nat × List Char)) :
    Option ((Nat × Nat × Option Nat) × Nat) :=
  match dp with
  | some (d, r1) =>
    match sp1 r1 with
    | some r2 => dmAlt s d monthAlts r2
    | none => none
  | none => none

/-- The regex `\b(\d{1,2})\s+(january|...|dec)(?:\s+(\d{4}))?\b`. -/
def tryDayMonth (prev : Bool) (s : List Char) : Option ((Nat × Nat × Option Nat) × Nat) :=
  if prev then none
  else orE (dmFrom s (dig2 s)) (dmFrom s (dig1 s))

/-- The am/pm designator captured by the time regex. -/
inductive Mer
  | am
  | pm
deriving DecidableEq

/-- Tail of the time regex after the hour and optional minutes:
    `\s*(am|pm)?\b` with the regex backtracking.  The greedy `\s*` is
    consumed in full; a failed meridiem falls back to a bare boundary at the
    position after the spaces (a boundary there means a word character
    follows, since a space precedes) and finally to a boundary before the
    spaces. -/
def timeTail (s r : List Char) (h : Nat) (m : Option Nat) :
    Option ((Nat × Option Nat × Option Mer) × Nat) :=
  let r1 := r.dropWhile isSpaceChar
  orE
    (match litPfx "am".data r1 with
     | some r2 => if bdry r2 then some ((h, m, some Mer.am), consumed s r2) else none
     | none => none)
    (orE
      (match litPfx "pm".data r1 with
       | some r2 => if bdry r2 then some ((h, m, some Mer.pm), consumed s r2) else none
       | none => none)
      (if r1.length = r.length then
        if bdry r then some ((h, m, none), consumed s r) else none
      else
        match r1 with
        | c :: _ =>
          if isWordChar c then some ((h, m, none), consumed s r1)
          else if bdry r then some ((h, m, none), consumed s r) else none
        | [] => if bdry r then some ((h, m, none), consumed s r) else none))

/-- Optional minutes group `(?::(\d{2}))?` of the time regex, greedy, with
    full-continuation backtracking. -/
def timeAfterHour (s : List Char) (h : Nat) (r : List Char) :
    Option ((Nat × Option Nat × Option Mer) × Nat) :=
  orE
    (match r with
     | ':' :: r1 =>
       match dig2 r1 with
       | some (mm, r2) => timeTail s r2 h (some mm)
       | none => none
     | _ => none)
    (timeTail s r h none)

/-- The regex `\bat\s+(\d{1,2})(?::(\d{2}))?\s*(am|pm)?\b` (flag `i`:
    matching happens on the lowered text). -/
def tryAtTime (prev : Bool) (s : List Char) :
    Option ((Nat × Option Nat × Option Mer) × Nat) :=
  if prev then none
  else
    match litPfx "at".data s with
    | none => none
    | some r1 =>
      match sp1 r1 with
      | none => none
      | some r2 =>
        orE
          (match dig2 r2 with
           | some (h, r3) => timeAfterHour s h r3
           | none => none)
          (match dig1 r2 with
           | some (h, r3) => timeAfterHour s h r3
           | none => none)

/-! ### The extractors and resolvers of `parser.ts` -/

/-- The meridiem normalization of `extractTime`: the two sequential `if`
    statements of the source (`pm` adds 12 below 12; `am` sends 12 to 0). -/
def normHour (h : Nat) (mer : Option Mer) : Nat :=
  if mer = some Mer.pm ∧ h < 12 then h + 12
  else if mer = some Mer.am ∧ h = 12 then 0 else h

/-- `extractTime` of `parser.ts`: leftmost time token, meridiem-normalized,
    formatted `HH:MM` with `padStart(2, "0")`. -/
def extractTime (text : List Char) : Option String :=
  let low := lowerStr text
  match scanP tryAtTime (low.length + 1) false low with
  | none => none
  | some (h, m, mer) =>
    some (String.mk (pad2 (normHour h mer) ++ ':' :: pad2 (m.getD 0)))

/-- The replacement of every `\s{2,}` run by a single space in
    `extractTitle`. -/
def collapseSp : Nat → List Char → List Char
  | 0, s => s
  | Nat.succ _, [] => []
  | Nat.succ fuel, c :: r =>
    if isSpaceChar c then
      match r with
      | c2 :: _ =>
        if isSpaceChar c2 then ' ' :: collapseSp fuel (r.dropWhile isSpaceChar)
        else c :: collapseSp fuel r
      | [] => [c]
    else c :: collapseSp fuel r

/-- One global strip of a pattern from a text (JS `replace` with `g` and an
    empty replacement). -/
def stripAll {a : Type} (tryP : Bool → List Char → Option (a × Nat)) (t : List Char) :
    List Char :=
  replP tryP (t.length + 1) false t (lowerStr t)

/-- `extractTitle` of `parser.ts`: the eight strips in source order, then the
    whitespace collapse and trim, then the fallback to the trimmed input. -/
def extractTitle (text : List Char) : List Char :=
  let t1 := stripAll tryAtTime text
  let t2 := stripAll tryWdStrip t1
  let t3 := stripAll tryRelWords t2
  let t4 := stripAll tryInDays t3
  let t5 := stripAll tryMonthDay t4
  let t6 := stripAll tryDayMonth t5
  let t7 := stripAll tryISO t6
  let t8 := stripAll tryUS t7
  let stripped := trimStr (collapseSp (t8.length + 1) t8)
  if stripped.length > 0 then stripped else trimStr text

/-- `resolveRelativeDate` of `parser.ts`.  The thrown `RangeError` of
    `toISODate` propagates through `Except`. -/
def resolveRelativeDate (now : Int) (text : List Char) : Except String (Option String) :=
  let lower := lowerStr text
  if hasWord "today".data lower then (toISODate now).map some
  else if hasWord "tomorrow".data lower then (toISODate (now + 1)).map some
  else if hasWord "yesterday".data lower then (toISODate (now - 1)).map some
  else
    match scanP tryInDays (lower.length + 1) false lower with
    | some n => (toISODate (now + (n : Int))).map some
    | none =>
      match scanP tryNextWeekday (lower.length + 1) false lower with
      | some target =>
        let today := weekdayOf now
        let r := (target - today + 7) % 7
        let daysUntil := if r = 0 then 7 else r
        (toISODate (now + daysUntil)).map some
      | none => .ok none

/-- `resolveAbsoluteDate` of `parser.ts`.  The source matches the ISO and US
    patterns on the original text and the month-name patterns on the lowered
    text; both are modelled on the lowered text, which matches the same
    positions (lowering only changes letters, which those digit patterns
    reject anyway). -/
def resolveAbsoluteDate (now : Int) (text : List Char) : Except String (Option String) :=
  let lower := lowerStr text
  let fuel := lower.length + 1
  match scanP tryISO fuel false lower with
  | some (y, m, d) => (toISODate (jsMkDate y ((m : Int) - 1) d)).map some
  | none =>
    match scanP tryUS fuel false lower with
    | some (m, d, yOpt) =>
      let year : Int := match yOpt with | some yy => (yy : Int) | none => getFullYear now
      (toISODate (jsMkDate year ((m : Int) - 1) d)).map some
    | none =>
      match scanP tryMonthDay fuel false lower with
      | some (mi, d, yOpt) =>
        let year : Int := match yOpt with | some yy => (yy : Int) | none => getFullYear now
        (toISODate (jsMkDate year mi d)).map some
      | none =>
        match scanP tryDayMonth fuel false lower with
        | some (d, mi, yOpt) =>
          let year : Int := match yOpt with | some yy => (yy : Int) | none => getFullYear now
          (toISODate (jsMkDate year mi d)).map some
        | none => .ok none

/-! ### Public surface (`types.ts` and `parseNaturalLanguage`) -/

/-- `CalendarEvent` of `types.ts`: exactly a title, an ISO date string and an
    optional time — the interface declares no other field. -/
structure CalendarEvent where
  title : String
  date : String
  time : Option String
deriving DecidableEq

/-- `ParseResult` of `types.ts`. -/
structure ParseResult where
  events : List CalendarEvent
  warning : Option String
deriving DecidableEq

/-- The fixed warning string of `parseNaturalLanguage`. -/
def warningMsg : String := "Could not recognise a date in the provided text."

/-- `parseNaturalLanguage` of `parser.ts`.  `now` is the clock reading (epoch
    day); a JS exception (only the `RangeError` of `toISOString`) is the
    `Except.error` case.  Both resolvers run unconditionally, in source
    order; the relative result wins by the nullish coalescing. -/
def parseNaturalLanguage (now : Int) (text : String) : Except String ParseResult :=
  let trimmed := trimStr text.data
  if trimmed = [] then .ok ⟨[], none⟩
  else
    match resolveRelativeDate now trimmed with
    | .error e => .error e
    | .ok rel =>
      match resolveAbsoluteDate now trimmed with
      | .error e => .error e
      | .ok abs =>
        match (match rel with | some d => some d | none => abs) with
        | none => .ok ⟨[], some warningMsg⟩
        | some date =>
          .ok ⟨[⟨String.mk (extractTitle trimmed), date, extractTime trimmed⟩], none⟩

/-! ### Capture bounds of the scanners -/

theorem dig1_lt {s : List Char} {v : Nat} {r : List Char} (h : dig1 s = some (v, r)) :
    v < 10 := by
  cases s with
  | nil => simp [dig1] at h
  | cons c cs =>
    simp only [dig1] at h
    split_ifs at h with hc
    · simp only [Option.some.injEq, Prod.mk.injEq] at h
      obtain ⟨rfl, rfl⟩ := h
      simp only [isDigitChar, Bool.and_eq_true, decide_eq_true_eq] at hc
      unfold digitVal
      omega

theorem dig2_lt {s : List Char} {v : Nat} {r : List Char} (h : dig2 s = some (v, r)) :
    v < 100 := by
  unfold dig2 at h
  cases h1 : dig1 s with
  | none => rw [h1] at h; cases h
  | some p1 =>
    obtain ⟨a, r1⟩ := p1
    rw [h1] at h
    dsimp only at h
    cases h2 : dig1 r1 with
    | none => rw [h2] at h; cases h
    | some p2 =>
      obtain ⟨b, r2⟩ := p2
      rw [h2] at h
      dsimp only at h
      simp only [Option.some.injEq, Prod.mk.injEq] at h
      obtain ⟨rfl, rfl⟩ := h
      have ha := dig1_lt h1
      have hb := dig1_lt h2
      omega

theorem dig4_lt {s : List Char} {v : Nat} {r : List Char} (h : dig4 s = some (v, r)) :
    v < 10000 := by
  unfold dig4 at h
  cases h1 : dig2 s with
  | none => rw [h1] at h; cases h
  | some p1 =>
    obtain ⟨a, r1⟩ := p1
    rw [h1] at h
    dsimp only at h
    cases h2 : dig2 r1 with
    | none => rw [h2] at h; cases h
    | some p2 =>
      obtain ⟨b, r2⟩ := p2
      rw [h2] at h
      dsimp only at h
      simp only [Option.some.injEq, Prod.mk.injEq] at h
      obtain ⟨rfl, rfl⟩ := h
      have ha := dig2_lt h1
      have hb := dig2_lt h2
      omega

/-- Any property of the captures of a pattern lifts to a leftmost scan. -/
theorem scanP_prop {a : Type} {P : a → Prop}
    (tryP : Bool → List Char → Option (a × Nat))
    (H : ∀ prev s x n, tryP prev s = some (x, n) → P x) :
    ∀ fuel prev s x, scanP tryP fuel prev s = some x → P x := by
  intro fuel
  induction fuel with
  | zero => intro prev s x h; simp [scanP] at h
  | succ f ih =>
    intro prev s x h
    simp only [scanP] at h
    cases htry : tryP prev s with
    | some val =>
      rw [htry] at h
      obtain ⟨x0, n0⟩ := val
      simp only [Option.some.injEq] at h
      exact h ▸ H prev s x0 n0 htry
    | none =>
      rw [htry] at h
      cases s with
      | nil => cases h
      | cons c r => exact ih (isWordChar c) r x h

theorem wdAlt_bound {alts : List (List Char × Int)} {s : List Char} {i : Int}
    {r : List Char} (ha : ∀ p ∈ alts, 0 ≤ p.2 ∧ p.2 ≤ 6)
    (h : wdAlt alts s = some (i, r)) : 0 ≤ i ∧ i ≤ 6 := by
  induction alts with
  | nil => cases h
  | cons p rest ih =>
    obtain ⟨w, j⟩ := p
    simp only [wdAlt] at h
    cases hl : litPfx w s with
    | none =>
      rw [hl] at h
      exact ih (fun q hq => ha q (List.mem_cons_of_mem _ hq)) h
    | some r1 =>
      rw [hl] at h
      dsimp only at h
      split_ifs at h with hb
      · simp only [Option.some.injEq, Prod.mk.injEq] at h
        obtain ⟨rfl, rfl⟩ := h
        exact ha _ (List.mem_cons_self _ _)
      · exact ih (fun q hq => ha q (List.mem_cons_of_mem _ hq)) h

theorem tryNextWeekday_bound {prev : Bool} {s : List Char} {i : Int} {n : Nat}
    (h : tryNextWeekday prev s = some (i, n)) : 0 ≤ i ∧ i ≤ 6 := by
  unfold tryNextWeekday at h
  split_ifs at h
  cases h1 : litPfx "next".data s with
  | none => rw [h1] at h; cases h
  | some r1 =>
    rw [h1] at h
    dsimp only at h
    cases h2 : sp1 r1 with
    | none => rw [h2] at h; cases h
    | some r2 =>
      rw [h2] at h
      dsimp only at h
      cases h3 : wdAlt weekdayAlts r2 with
      | none => rw [h3] at h; cases h
      | some p =>
        obtain ⟨j, r3⟩ := p
        rw [h3] at h
        dsimp only at h
        simp only [Option.some.injEq, Prod.mk.injEq] at h
        obtain ⟨rfl, rfl⟩ := h
        exact wdAlt_bound (by decide) h3

theorem yrTail_bound {r : List Char} {yo : Option Nat} {r2 : List Char}
    (h : yrTail r = some (yo, r2)) : ∀ y ∈ yo, y < 10000 := by
  unfold yrTail at h
  cases hs : sp1 r with
  | none =>
    rw [hs] at h
    dsimp only at h
    split_ifs at h
    simp only [Option.some.injEq, Prod.mk.injEq] at h
    obtain ⟨rfl, rfl⟩ := h
    simp
  | some r1 =>
    rw [hs] at h
    dsimp only at h
    cases h4 : dig4 r1 with
    | none =>
      rw [h4] at h
      dsimp only at h
      split_ifs at h
      simp only [Option.some.injEq, Prod.mk.injEq] at h
      obtain ⟨rfl, rfl⟩ := h
      simp
    | some p =>
      obtain ⟨y4, r3⟩ := p
      rw [h4] at h
      dsimp only at h
      split_ifs at h
      · simp only [Option.some.injEq, Prod.mk.injEq] at h
        obtain ⟨rfl, rfl⟩ := h
        simpa using dig4_lt h4
      · simp only [Option.some.injEq, Prod.mk.injEq] at h
        obtain ⟨rfl, rfl⟩ := h
        simp

theorem tryISO_bound {prev : Bool} {s : List Char} {y m d n : Nat}
    (h : tryISO prev s = some ((y, m, d), n)) : y < 10000 ∧ m < 100 ∧ d < 100 := by
  unfold tryISO at h
  split_ifs at h
  cases h4 : dig4 s with
  | none => rw [h4] at h; cases h
  | some p =>
    obtain ⟨y0, r1⟩ := p
    rw [h4] at h
    dsimp only at h
    split at h
    · cases h2 : dig2 _ with
      | none => rw [h2] at h; cases h
      | some p2 =>
        obtain ⟨m0, r3⟩ := p2
        rw [h2] at h
        dsimp only at h
        split at h
        · cases h3 : dig2 _ with
          | none => rw [h3] at h; cases h
          | some p3 =>
            obtain ⟨d0, r5⟩ := p3
            rw [h3] at h
            dsimp only at h
            split_ifs at h
            simp only [Option.some.injEq, Prod.mk.injEq] at h
            obtain ⟨⟨rfl, rfl, rfl⟩, rfl⟩ := h
            exact ⟨dig4_lt h4, dig2_lt h2, dig2_lt h3⟩
        · cases h
    · cases h

theorem usTail_bound {s r : List Char} {m d mo dd : Nat} {yo : Option Nat} {n : Nat}
    (h : usTail s r m d = some ((mo, dd, yo), n)) :
    mo = m ∧ dd = d ∧ ∀ y ∈ yo, y < 10000 := by
  unfold usTail at h
  split at h
  · cases h4 : dig4 _ with
    | none =>
      rw [h4] at h
      dsimp only at h
      simp only [Option.some.injEq, Prod.mk.injEq] at h
      obtain ⟨⟨rfl, rfl, rfl⟩, rfl⟩ := h
      simp
    | some p =>
      obtain ⟨y4, r2⟩ := p
      rw [h4] at h
      dsimp only at h
      split_ifs at h
      · simp only [Option.some.injEq, Prod.mk.injEq] at h
        obtain ⟨⟨rfl, rfl, rfl⟩, rfl⟩ := h
        simpa using dig4_lt h4
      · simp only [Option.some.injEq, Prod.mk.injEq] at h
        obtain ⟨⟨rfl, rfl, rfl⟩, rfl⟩ := h
        simp
  · split_ifs at h
    simp only [Option.some.injEq, Prod.mk.injEq] at h
    obtain ⟨⟨rfl, rfl, rfl⟩, rfl⟩ := h
    simp

theorem usDay_bound {s r1 : List Char} {m mo dd : Nat} {yo : Option Nat} {n : Nat}
    (h : usDay s r1 m = some ((mo, dd, yo), n)) :
    mo = m ∧ dd < 100 ∧ ∀ y ∈ yo, y < 10000 := by
  unfold usDay at h
  cases h2 : dig2 r1 with
  | some p =>
    obtain ⟨d2, r2⟩ := p
    rw [h2] at h
    dsimp only at h
    cases ht : usTail s r2 m d2 with
    | some q =>
      rw [ht] at h
      dsimp only [orE] at h
      simp only [Option.some.injEq] at h
      subst h
      obtain ⟨rfl, rfl, hy⟩ := usTail_bound ht
      exact ⟨rfl, dig2_lt h2, hy⟩
    | none =>
      rw [ht] at h
      dsimp only [orE] at h
      cases h1 : dig1 r1 with
      | none => rw [h1] at h; cases h
      | some p1 =>
        obtain ⟨d1, r2b⟩ := p1
        rw [h1] at h
        dsimp only at h
        obtain ⟨rfl, rfl, hy⟩ := usTail_bound h
        exact ⟨rfl, lt_trans (dig1_lt h1) (by norm_num), hy⟩
  | none =>
    rw [h2] at h
    dsimp only [orE] at h
    cases h1 : dig1 r1 with
    | none => rw [h1] at h; cases h
    | some p1 =>
      obtain ⟨d1, r2b⟩ := p1
      rw [h1] at h
      dsimp only at h
      obtain ⟨rfl, rfl, hy⟩ := usTail_bound h
      exact ⟨rfl, lt_trans (dig1_lt h1) (by norm_num), hy⟩

theorem tryUS_bound {prev : Bool} {s : List Char} {mo dd : Nat} {yo : Option Nat} {n : Nat}
    (h : tryUS prev s = some ((mo, dd, yo), n)) :
    mo < 100 ∧ dd < 100 ∧ ∀ y ∈ yo, y < 10000 := by
  unfold tryUS at h
  split_ifs at h
  cases h2 : dig2 s with
  | some p =>
    obtain ⟨m2, r⟩ := p
    rw [h2] at h
    dsimp only at h
    split at h
    · cases hu : usDay s _ m2 with
      | some q =>
        rw [hu] at h
        dsimp only [orE] at h
        simp only [Option.some.injEq] at h
        subst h
        obtain ⟨rfl, hd, hy⟩ := usDay_bound hu
        exact ⟨dig2_lt h2, hd, hy⟩
      | none =>
        rw [hu] at h
        dsimp only [orE] at h
        cases h1 : dig1 s with
        | none => rw [h1] at h; cases h
        | some p1 =>
          obtain ⟨m1, r1⟩ := p1
          rw [h1] at h
          dsimp only at h
          split at h
          · obtain ⟨rfl, hd, hy⟩ := usDay_bound h
            exact ⟨lt_trans (dig1_lt h1) (by norm_num), hd, hy⟩
          · cases h
    · dsimp only [orE] at h
      cases h1 : dig1 s with
      | none => rw [h1] at h; cases h
      | some p1 =>
        obtain ⟨m1, r1⟩ := p1
        rw [h1] at h
        dsimp only at h
        split at h
        · obtain ⟨rfl, hd, hy⟩ := usDay_bound h
          exact ⟨lt_trans (dig1_lt h1) (by norm_num), hd, hy⟩
        · cases h
  | none =>
    rw [h2] at h
    dsimp only [orE] at h
    cases h1 : dig1 s with
    | none => rw [h1] at h; cases h
    | some p1 =>
      obtain ⟨m1, r1⟩ := p1
      rw [h1] at h
      dsimp only at h
      split at h
      · obtain ⟨rfl, hd, hy⟩ := usDay_bound h
        exact ⟨lt_trans (dig1_lt h1) (by norm_num), hd, hy⟩
      · cases h

theorem mdDay_bound {s r1 : List Char} {mi mo dd : Nat} {yo : Option Nat} {n : Nat}
    (h : mdDay s r1 mi = some ((mo, dd, yo), n)) :
    mo = mi ∧ dd < 100 ∧ ∀ y ∈ yo, y < 10000 := by
  unfold mdDay at h
  cases h2 : dig2 r1 with
  | some p =>
    obtain ⟨d2, r2⟩ := p
    rw [h2] at h
    dsimp only at h
    cases hy2 : yrTail r2 with
    | some q =>
      obtain ⟨y2, r3⟩ := q
      rw [hy2] at h
      dsimp only [orE] at h
      simp only [Option.some.injEq, Prod.mk.injEq] at h
      obtain ⟨⟨rfl, rfl, rfl⟩, rfl⟩ := h
      exact ⟨rfl, dig2_lt h2, yrTail_bound hy2⟩
    | none =>
      rw [hy2] at h
      dsimp only [orE] at h
      cases h1 : dig1 r1 with
      | none => rw [h1] at h; cases h
      | some p1 =>
        obtain ⟨d1, r2b⟩ := p1
        rw [h1] at h
        dsimp only at h
        cases hy1 : yrTail r2b with
        | none => rw [hy1] at h; cases h
        | some q1 =>
          obtain ⟨y1, r3b⟩ := q1
          rw [hy1] at h
          dsimp only at h
          simp only [Option.some.injEq, Prod.mk.injEq] at h
          obtain ⟨⟨rfl, rfl, rfl⟩, rfl⟩ := h
          exact ⟨rfl, lt_trans (dig1_lt h1) (by norm_num), yrTail_bound hy1⟩
  | none =>
    rw [h2] at h
    dsimp only [orE] at h
    cases h1 : dig1 r1 with
    | none => rw [h1] at h; cases h
    | some p1 =>
      obtain ⟨d1, r2b⟩ := p1
      rw [h1] at h
      dsimp only at h
      cases hy1 : yrTail r2b with
      | none => rw [hy1] at h; cases h
      | some q1 =>
        obtain ⟨y1, r3b⟩ := q1
        rw [hy1] at h
        dsimp only at h
        simp only [Option.some.injEq, Prod.mk.injEq] at h
        obtain ⟨⟨rfl, rfl, rfl⟩, rfl⟩ := h
        exact ⟨rfl, lt_trans (dig1_lt h1) (by norm_num), yrTail_bound hy1⟩

theorem mdAlt_bound {s : List Char} {alts : List (List Char × Nat)} {r : List Char}
    {mo dd : Nat} {yo : Option Nat} {n : Nat}
    (ha : ∀ p ∈ alts, p.2 ≤ 11)
    (h : mdAlt s alts r = some ((mo, dd, yo), n)) :
    mo ≤ 11 ∧ dd < 100 ∧ ∀ y ∈ yo, y < 10000 := by
  induction alts generalizing r with
  | nil => cases h
  | cons p rest ih =>
    obtain ⟨w, mi⟩ := p
    simp only [mdAlt] at h
    cases hl : litPfx w r with
    | none =>
      rw [hl] at h
      exact ih (fun q hq => ha q (List.mem_cons_of_mem _ hq)) h
    | some r1 =>
      rw [hl] at h
      dsimp only at h
      cases hs : sp1 r1 with
      | none =>
        rw [hs] at h
        dsimp only at h
        exact ih (fun q hq => ha q (List.mem_cons_of_mem _ hq)) h
      | some r2 =>
        rw [hs] at h
        dsimp only at h
        cases hm : mdDay s r2 mi with
        | none =>
          rw [hm] at h
          dsimp only at h
          exact ih (fun q hq => ha q (List.mem_cons_of_mem _ hq)) h
        | some q =>
          rw [hm] at h
          dsimp only at h
          obtain ⟨⟨qm, qd, qy⟩, qn⟩ := q
          simp only [Option.some.injEq, Prod.mk.injEq] at h
          obtain ⟨⟨rfl, rfl, rfl⟩, rfl⟩ := h
          obtain ⟨rfl, hd, hy⟩ := mdDay_bound hm
          exact ⟨ha _ (List.mem_cons_self _ _), hd, hy⟩

theorem tryMonthDay_bound {prev : Bool} {s : List Char} {mo dd : Nat} {yo : Option Nat}
    {n : Nat} (h : tryMonthDay prev s = some ((mo, dd, yo), n)) :
    mo ≤ 11 ∧ dd < 100 ∧ ∀ y ∈ yo, y < 10000 := by
  unfold tryMonthDay at h
  split_ifs at h
  exact mdAlt_bound (by decide) h

theorem dmAlt_bound {s : List Char} {d : Nat} {alts : List (List Char × Nat)}
    {r : List Char} {dd mo : Nat} {yo : Option Nat} {n : Nat}
    (ha : ∀ p ∈ alts, p.2 ≤ 11)
    (h : dmAlt s d alts r = some ((dd, mo, yo), n)) :
    dd = d ∧ mo ≤ 11 ∧ ∀ y ∈ yo, y < 10000 := by
  induction alts generalizing r with
  | nil => cases h
  | cons p rest ih =>
    obtain ⟨w, mi⟩ := p
    simp only [dmAlt] at h
    cases hl : litPfx w r with
    | none =>
      rw [hl] at h
      exact ih (fun q hq => ha q (List.mem_cons_of_mem _ hq)) h
    | some r1 =>
      rw [hl] at h
      dsimp only at h
      cases hy2 : yrTail r1 with
      | none =>
        rw [hy2] at h
        dsimp only at h
        exact ih (fun q hq => ha q (List.mem_cons_of_mem _ hq)) h
      | some q =>
        obtain ⟨y2, r2⟩ := q
        rw [hy2] at h
        dsimp only at h
        simp only [Option.some.injEq, Prod.mk.injEq] at h
        obtain ⟨⟨rfl, rfl, rfl⟩, rfl⟩ := h
        exact ⟨rfl, ha _ (List.mem_cons_self _ _), yrTail_bound hy2⟩

theorem tryDayMonth_bound {prev : Bool} {s : List Char} {dd mo : Nat} {yo : Option Nat}
    {n : Nat} (h : tryDayMonth prev s = some ((dd, mo, yo), n)) :
    dd < 100 ∧ mo ≤ 11 ∧ ∀ y ∈ yo, y < 10000 := by
  unfold tryDayMonth at h
  split_ifs at h
  unfold dmFrom at h
  cases h2 : dig2 s with
  | some p =>
    obtain ⟨d2, r1⟩ := p
    rw [h2] at h
    dsimp only at h
    cases hs : sp1 r1 with
    | some r2 =>
      rw [hs] at h
      dsimp only at h
      cases hd2 : dmAlt s d2 monthAlts r2 with
      | some q =>
        rw [hd2] at h
        dsimp only [orE] at h
        simp only [Option.some.injEq] at h
        subst h
        obtain ⟨rfl, hm, hy⟩ := dmAlt_bound (by decide) hd2
        exact ⟨dig2_lt h2, hm, hy⟩
      | none =>
        rw [hd2] at h
        dsimp only [orE] at h
        cases h1 : dig1 s with
        | none => rw [h1] at h; cases h
        | some p1 =>
          obtain ⟨d1, r1b⟩ := p1
          rw [h1] at h
          dsimp only at h
          cases hs1 : sp1 r1b with
          | none => rw [hs1] at h; cases h
          | some r2b =>
            rw [hs1] at h
            dsimp only at h
            obtain ⟨rfl, hm, hy⟩ := dmAlt_bound (by decide) h
            exact ⟨lt_trans (dig1_lt h1) (by norm_num), hm, hy⟩
    | none =>
      rw [hs] at h
      dsimp only [orE] at h
      cases h1 : dig1 s with
      | none => rw [h1] at h; cases h
      | some p1 =>
        obtain ⟨d1, r1b⟩ := p1
        rw [h1] at h
        dsimp only at h
        cases hs1 : sp1 r1b with
        | none => rw [hs1] at h; cases h
        | some r2b =>
          rw [hs1] at h
          dsimp only at h
          obtain ⟨rfl, hm, hy⟩ := dmAlt_bound (by decide) h
          exact ⟨lt_trans (dig1_lt h1) (by norm_num), hm, hy⟩
  | none =>
    rw [h2] at h
    dsimp only [orE] at h
    cases h1 : dig1 s with
    | none => rw [h1] at h; cases h
    | some p1 =>
      obtain ⟨d1, r1b⟩ := p1
      rw [h1] at h
      dsimp only at h
      cases hs1 : sp1 r1b with
      | none => rw [hs1] at h; cases h
      | some r2b =>
        rw [hs1] at h
        dsimp only at h
        obtain ⟨rfl, hm, hy⟩ := dmAlt_bound (by decide) h
        exact ⟨lt_trans (dig1_lt h1) (by norm_num), hm, hy⟩

/-! ### Calendar arithmetic lemmas -/

theorem civil_mar15 (y : Int) :
    civilToDay y 3 15 =
      y / 400 * 146097 + ((y % 400) * 365 + (y % 400) / 4 - (y % 400) / 100 + 14) - 719468 := by
  simp only [civilToDay]
  norm_num
  omega

set_option maxRecDepth 4000 in
/-- Inversion of the year-of-era extraction at day-of-year 14 (March 15),
    checked for every year of an era. -/
theorem yoeInv14 : ∀ n : Nat, n < 400 →
    (365 * n + n / 4 - n / 100 + 14 - (365 * n + n / 4 - n / 100 + 14) / 1460 +
        (365 * n + n / 4 - n / 100 + 14) / 36524 -
        (365 * n + n / 4 - n / 100 + 14) / 146096) / 365 = n := by decide

/-- The civil-date conversions round-trip on March 15 of any year. -/
theorem round_mar15 (y : Int) : dayToCivil (civilToDay y 3 15) = (y, 3, 15) := by
  rw [civil_mar15]
  have hyoe1 : 0 ≤ y % 400 := Int.emod_nonneg y (by norm_num)
  have hyoe2 : y % 400 < 400 := Int.emod_lt_of_pos y (by norm_num)
  simp only [dayToCivil]
  have e0 : y / 400 * 146097 + (y % 400 * 365 + y % 400 / 4 - y % 400 / 100 + 14) - 719468 + 719468
      = y / 400 * 146097 + (y % 400 * 365 + y % 400 / 4 - y % 400 / 100 + 14) := by ring
  rw [e0]
  have e1 : (y / 400 * 146097 + (y % 400 * 365 + y % 400 / 4 - y % 400 / 100 + 14)) / 146097
      = y / 400 := by omega
  rw [e1]
  have e2 : y / 400 * 146097 + (y % 400 * 365 + y % 400 / 4 - y % 400 / 100 + 14) - y / 400 * 146097
      = y % 400 * 365 + y % 400 / 4 - y % 400 / 100 + 14 := by ring
  rw [e2]
  have e3 : (y % 400 * 365 + y % 400 / 4 - y % 400 / 100 + 14 -
        (y % 400 * 365 + y % 400 / 4 - y % 400 / 100 + 14) / 1460 +
        (y % 400 * 365 + y % 400 / 4 - y % 400 / 100 + 14) / 36524 -
        (y % 400 * 365 + y % 400 / 4 - y % 400 / 100 + 14) / 146096) / 365 = y % 400 := by
    have hn := yoeInv14 (y % 400).toNat (by omega)
    omega
  rw [e3]
  have e4 : y % 400 * 365 + y % 400 / 4 - y % 400 / 100 + 14 -
      (365 * (y % 400) + (y % 400) / 4 - (y % 400) / 100) = 14 := by ring
  rw [e4]
  norm_num
  omega

/-- For clock readings between 1970 and well before the year 9600, the year
    read by `getFullYear` stays in a range where the two-digit-year quirk is
    inert and the ISO year is four digits. -/
theorem getFullYear_bound (t : Int) (h1 : 0 ≤ t) (h2 : t ≤ 2786859) :
    1600 ≤ getFullYear t ∧ getFullYear t ≤ 9999 := by
  unfold getFullYear
  simp only [dayToCivil]
  split_ifs <;> omega

theorem mk_bound (y m0 d : Int) (hy0 : 0 ≤ y) (hy : y ≤ 9999)
    (hm : -1 ≤ m0) (hm2 : m0 ≤ 98) (hd0 : 0 ≤ d) (hd : d ≤ 99) :
    -100000000 ≤ civilToDay (y + m0 / 12) (m0 % 12 + 1) d ∧
      civilToDay (y + m0 / 12) (m0 % 12 + 1) d ≤ 100000000 := by
  simp only [civilToDay]
  split_ifs <;> omega

/-- Any date the absolute resolver can construct stays far inside the
    ECMAScript `Date` range. -/
theorem jsMkDate_bound (y m0 d : Int) (hy0 : 0 ≤ y) (hy : y ≤ 9999)
    (hm : -1 ≤ m0) (hm2 : m0 ≤ 98) (hd0 : 0 ≤ d) (hd : d ≤ 99) :
    -100000000 ≤ jsMkDate y m0 d ∧ jsMkDate y m0 d ≤ 100000000 := by
  simp only [jsMkDate]
  split_ifs with hq
  · exact mk_bound (y + 1900) m0 d (by omega) (by omega) hm hm2 hd0 hd
  · exact mk_bound y m0 d hy0 hy hm hm2 hd0 hd

/-- In-range dates format without throwing. -/
theorem toISODate_ok {t : Int} (h1 : -100000000 ≤ t) (h2 : t ≤ 100000000) :
    toISODate t = .ok (String.mk (toISODateCore t)) := by
  unfold toISODate maxDays
  split_ifs with h
  · rcases h with h | h <;> omega
  · rfl

/-- The absolute resolver never throws when the clock is in the realistic
    range: every year it can pass to the `Date` constructor is at most four
    digits, so the constructed date is far inside the `Date` range. -/
theorem resolveAbsoluteDate_ok (now : Int) (t : List Char)
    (h1 : 0 ≤ now) (h2 : now ≤ 2786859) :
    ∃ v, resolveAbsoluteDate now t = .ok v := by
  have hyr := getFullYear_bound now h1 h2
  simp only [resolveAbsoluteDate]
  cases hI : scanP tryISO ((lowerStr t).length + 1) false (lowerStr t) with
  | some p =>
    obtain ⟨y, m, d⟩ := p
    dsimp only
    have hb : y < 10000 ∧ m < 100 ∧ d < 100 := by
      refine scanP_prop (P := fun x : Nat × Nat × Nat => x.1 < 10000 ∧ x.2.1 < 100 ∧ x.2.2 < 100)
        tryISO ?_ _ _ _ _ hI
      intro prev s x n hx
      obtain ⟨a, b, c⟩ := x
      exact tryISO_bound hx
    have hr := jsMkDate_bound y ((m : Int) - 1) d (by omega) (by omega)
      (by omega) (by omega) (by omega) (by omega)
    rw [toISODate_ok hr.1 hr.2]
    exact ⟨_, rfl⟩
  | none =>
    dsimp only
    cases hU : scanP tryUS ((lowerStr t).length + 1) false (lowerStr t) with
    | some p =>
      obtain ⟨m, d, yo⟩ := p
      dsimp only
      have hb : m < 100 ∧ d < 100 ∧ ∀ yy ∈ yo, yy < 10000 := by
        refine scanP_prop
          (P := fun x : Nat × Nat × Option Nat => x.1 < 100 ∧ x.2.1 < 100 ∧ ∀ yy ∈ x.2.2, yy < 10000)
          tryUS ?_ _ _ _ _ hU
        intro prev s x n hx
        obtain ⟨a, b, c⟩ := x
        exact tryUS_bound hx
      have hy : 0 ≤ (match yo with | some yy => (yy : Int) | none => getFullYear now) ∧
          (match yo with | some yy => (yy : Int) | none => getFullYear now) ≤ 9999 := by
        cases yo with
        | some yy =>
          have := hb.2.2 yy (by simp)
          constructor <;> simp <;> omega
        | none =>
          dsimp only
          exact ⟨by omega, by omega⟩
      have hr := jsMkDate_bound _ ((m : Int) - 1) d hy.1 hy.2 (by omega) (by omega)
        (by omega) (by omega)
      rw [toISODate_ok hr.1 hr.2]
      exact ⟨_, rfl⟩
    | none =>
      dsimp only
      cases hM : scanP tryMonthDay ((lowerStr t).length + 1) false (lowerStr t) with
      | some p =>
        obtain ⟨mi, d, yo⟩ := p
        dsimp only
        have hb : mi ≤ 11 ∧ d < 100 ∧ ∀ yy ∈ yo, yy < 10000 := by
          refine scanP_prop
            (P := fun x : Nat × Nat × Option Nat => x.1 ≤ 11 ∧ x.2.1 < 100 ∧ ∀ yy ∈ x.2.2, yy < 10000)
            tryMonthDay ?_ _ _ _ _ hM
          intro prev s x n hx
          obtain ⟨a, b, c⟩ := x
          exact tryMonthDay_bound hx
        have hy : 0 ≤ (match yo with | some yy => (yy : Int) | none => getFullYear now) ∧
            (match yo with | some yy => (yy : Int) | none => getFullYear now) ≤ 9999 := by
          cases yo with
          | some yy =>
            have := hb.2.2 yy (by simp)
            constructor <;> simp <;> omega
          | none =>
            dsimp only
            exact ⟨by omega, by omega⟩
        have hr := jsMkDate_bound _ (mi : Int) d hy.1 hy.2 (by omega) (by omega)
          (by omega) (by omega)
        rw [toISODate_ok hr.1 hr.2]
        exact ⟨_, rfl⟩
      | none =>
        dsimp only
        cases hD : scanP tryDayMonth ((lowerStr t).length + 1) false (lowerStr t) with
        | some p =>
          obtain ⟨d, mi, yo⟩ := p
          dsimp only
          have hb : d < 100 ∧ mi ≤ 11 ∧ ∀ yy ∈ yo, yy < 10000 := by
            refine scanP_prop
              (P := fun x : Nat × Nat × Option Nat => x.1 < 100 ∧ x.2.1 ≤ 11 ∧ ∀ yy ∈ x.2.2, yy < 10000)
              tryDayMonth ?_ _ _ _ _ hD
            intro prev s x n hx
            obtain ⟨a, b, c⟩ := x
            exact tryDayMonth_bound hx
          have hy : 0 ≤ (match yo with | some yy => (yy : Int) | none => getFullYear now) ∧
              (match yo with | some yy => (yy : Int) | none => getFullYear now) ≤ 9999 := by
            cases yo with
            | some yy =>
              have := hb.2.2 yy (by simp)
              constructor <;> simp <;> omega
            | none =>
            dsimp only
            exact ⟨by omega, by omega⟩
          have hr := jsMkDate_bound _ (mi : Int) d hy.1 hy.2 (by omega) (by omega)
            (by omega) (by omega)
          rw [toISODate_ok hr.1 hr.2]
          exact ⟨_, rfl⟩
        | none =>
          exact ⟨none, rfl⟩

/-! ### List and trimming lemmas -/

theorem dropWhile_head_false {p : Char → Bool} :
    ∀ {l : List Char} {c : Char} {r : List Char}, l.dropWhile p = c :: r → p c = false := by
  intro l
  induction l with
  | nil => intro c r h; cases h
  | cons x xs ih =>
    intro c r h
    rw [List.dropWhile_cons] at h
    split_ifs at h with hx
    · exact ih h
    · cases h
      simpa using hx

theorem mem_dropWhile_of_not {p : Char → Bool} {c : Char} :
    ∀ {l : List Char}, c ∈ l → p c = false → c ∈ l.dropWhile p := by
  intro l
  induction l with
  | nil => intro h; cases h
  | cons x xs ih =>
    intro hm hc
    rw [List.dropWhile_cons]
    split_ifs with hx
    · rcases List.mem_cons.mp hm with rfl | hm2
      · rw [hx] at hc; cases hc
      · exact ih hm2 hc
    · exact hm

/-- A nonempty trimmed text contains a non-space character. -/
theorem trimStr_has_nonspace {s : List Char} (h : trimStr s ≠ []) :
    ∃ c ∈ trimStr s, isSpaceChar c = false := by
  unfold trimStr at *
  cases hv : (s.dropWhile isSpaceChar).reverse.dropWhile isSpaceChar with
  | nil => rw [hv] at h; simp at h
  | cons c r =>
    refine ⟨c, ?_, dropWhile_head_false hv⟩
    simp

/-- A text containing a non-space character trims to a nonempty text. -/
theorem trimStr_ne_of_has {s : List Char} (h : ∃ c ∈ s, isSpaceChar c = false) :
    trimStr s ≠ [] := by
  obtain ⟨c, hm, hc⟩ := h
  unfold trimStr
  have h1 : c ∈ s.dropWhile isSpaceChar := mem_dropWhile_of_not hm hc
  have h2 : c ∈ (s.dropWhile isSpaceChar).reverse := List.mem_reverse.mpr h1
  have h3 : c ∈ (s.dropWhile isSpaceChar).reverse.dropWhile isSpaceChar :=
    mem_dropWhile_of_not h2 hc
  intro he
  rw [List.reverse_eq_nil_iff] at he
  rw [he] at h3
  cases h3

/-- Trimming is idempotent as far as emptiness is concerned. -/
theorem trimStr_trimStr_ne {s : List Char} (h : trimStr s ≠ []) :
    trimStr (trimStr s) ≠ [] :=
  trimStr_ne_of_has (trimStr_has_nonspace h)

/-- The derived title is nonempty whenever the (already trimmed) input is. -/
theorem extractTitle_ne_nil {text : List Char} (h : trimStr text ≠ []) :
    extractTitle text ≠ [] := by
  simp only [extractTitle]
  split_ifs with hl
  · intro he
    rw [he] at hl
    simp at hl
  · exact h

/-! ### Shape of every successful parse -/

/-- Every `Except.ok` result of the parser is the empty result, the warning
    result, or a single event whose title and time come from the two
    extractors — in particular the `CalendarEvent` carries nothing else. -/
theorem parse_ok_shape (now : Int) (s : String) (r : ParseResult)
    (h : parseNaturalLanguage now s = .ok r) :
    r = ⟨[], none⟩ ∨ r = ⟨[], some warningMsg⟩ ∨
      ∃ d, trimStr s.data ≠ [] ∧ r = ⟨[⟨String.mk (extractTitle (trimStr s.data)), d,
        extractTime (trimStr s.data)⟩], none⟩ := by
  simp only [parseNaturalLanguage] at h
  split_ifs at h with he
  · left
    cases h
    rfl
  · cases hrel : resolveRelativeDate now (trimStr s.data) with
    | error e => rw [hrel] at h; cases h
    | ok rel =>
      rw [hrel] at h
      dsimp only at h
      cases habs : resolveAbsoluteDate now (trimStr s.data) with
      | error e => rw [habs] at h; cases h
      | ok abs =>
        rw [habs] at h
        dsimp only at h
        cases rel with
        | some d =>
          dsimp only at h
          cases h
          right; right
          exact ⟨d, he, rfl⟩
        | none =>
          dsimp only at h
          cases abs with
          | some d =>
            dsimp only at h
            cases h
            right; right
            exact ⟨d, he, rfl⟩
          | none =>
            dsimp only at h
            cases h
            right; left
            rfl

/-- The branch of the parser taken on non-blank inputs, spelled out: both
    resolvers are consulted in order and the relative one wins. -/
theorem parse_nonblank (now : Int) (s : String) (h : trimStr s.data ≠ [])
    {rel abs : Option String}
    (hrel : resolveRelativeDate now (trimStr s.data) = .ok rel)
    (habs : resolveAbsoluteDate now (trimStr s.data) = .ok abs) :
    parseNaturalLanguage now s =
      match (match rel with | some d => some d | none => abs) with
      | none => .ok ⟨[], some warningMsg⟩
      | some date =>
        .ok ⟨[⟨String.mk (extractTitle (trimStr s.data)), date,
          extractTime (trimStr s.data)⟩], none⟩ := by
  simp only [parseNaturalLanguage]
  rw [if_neg h, hrel, habs]

/-- The meridiem normalization keeps valid hours valid. -/
theorem normHour_le {h : Nat} (mer : Option Mer) (hh : h ≤ 23) :
    normHour h mer ≤ 23 := by
  unfold normHour
  split_ifs <;> omega

/-! ### The claims -/

/-- C1: the claim that `parseNaturalLanguage` never raises on any input is
    violated by the code: for the input "in 99999999999 days" the relative
    resolver matches, the offset date overflows the ECMAScript `Date` range,
    and `toISOString` throws a `RangeError` — for every clock reading in the
    representable range. -/
theorem claim_C1 (now : Int) (h1 : -100000000 ≤ now) (h2 : now ≤ 100000000) :
    parseNaturalLanguage now "in 99999999999 days" =
      .error "RangeError: Invalid time value" := by
  have hrel : resolveRelativeDate now (trimStr "in 99999999999 days".data)
      = (toISODate (now + ((99999999999 : Nat) : Int))).map some := rfl
  have htoi : toISODate (now + ((99999999999 : Nat) : Int))
      = .error "RangeError: Invalid time value" := by
    unfold toISODate maxDays
    rw [if_pos]
    right
    omega
  simp only [parseNaturalLanguage]
  rw [if_neg (by decide), hrel, htoi]
  rfl

theorem claim_C1_witness :
    ((-100000000 : Int) ≤ 20000 ∧ (20000 : Int) ≤ 100000000) ∧
      parseNaturalLanguage 20000 "in 99999999999 days" =
        .error "RangeError: Invalid time value" :=
  ⟨⟨by decide, by decide⟩, claim_C1 20000 (by decide) (by decide)⟩

/-- C2: the claimed behaviour on "Call after 3 days at 4pm to 5pm" (one event
    at now + 3 with time 16:00 and endTime 17:00) is what the repository's own
    tests and README expect, but the code recognizes neither "after N days"
    nor any end time: it returns no event and the warning, for every clock
    reading. -/
theorem claim_C2_eval (now : Int) :
    parseNaturalLanguage now "Call after 3 days at 4pm to 5pm" =
      .ok ⟨[], some warningMsg⟩ := rfl

/-- C8: the claimed "next month" resolution (first day of the following
    month) is what the repository's own tests expect, but the code's relative
    resolver has no "next month" pattern ("month" is not a weekday name), so
    "Review next month" yields no event and the warning, for every clock
    reading. -/
theorem claim_C8_eval (now : Int) :
    parseNaturalLanguage now "Review next month" = .ok ⟨[], some warningMsg⟩ := rfl

/-- C3: blank input yields empty events with no warning; non-blank input in
    which neither resolver recognizes a date yields empty events with the
    fixed non-empty warning; and whenever an event is produced the warning is
    unset. -/
theorem claim_C3 :
    (∀ (now : Int) (s : String), trimStr s.data = [] →
      parseNaturalLanguage now s = .ok ⟨[], none⟩) ∧
    (∀ (now : Int) (s : String), trimStr s.data ≠ [] →
      resolveRelativeDate now (trimStr s.data) = .ok none →
      resolveAbsoluteDate now (trimStr s.data) = .ok none →
      parseNaturalLanguage now s = .ok ⟨[], some warningMsg⟩ ∧ warningMsg ≠ "") ∧
    (∀ (now : Int) (s : String) (r : ParseResult), parseNaturalLanguage now s = .ok r →
      r.events ≠ [] → r.warning = none) := by
  refine ⟨?_, ?_, ?_⟩
  · intro now s h
    simp only [parseNaturalLanguage]
    rw [if_pos h]
  · intro now s h h1 h2
    refine ⟨?_, by decide⟩
    rw [parse_nonblank now s h h1 h2]
  · intro now s r h he
    rcases parse_ok_shape now s r h with rfl | rfl | ⟨d, hb, rfl⟩
    · cases he rfl
    · cases he rfl
    · rfl

theorem claim_C3_witness :
    parseNaturalLanguage 0 "   " = .ok ⟨[], none⟩ ∧
    parseNaturalLanguage 0 "gibberish text without a date" = .ok ⟨[], some warningMsg⟩ ∧
    (ParseResult.mk [⟨"Stand-up", "1970-01-01", none⟩] none).warning = none :=
  ⟨claim_C3.1 0 "   " (by decide),
   (claim_C3.2.1 0 "gibberish text without a date" (by decide) rfl rfl).1,
   claim_C3.2.2 0 "Stand-up today" ⟨[⟨"Stand-up", "1970-01-01", none⟩], none⟩ rfl (by decide)⟩

/-- C9: every produced event has a nonempty title: the stripped remainder is
    used when nonempty, and otherwise the trimmed input — itself nonempty on
    the only branch that builds an event. -/
theorem claim_C9 (now : Int) (s : String) (r : ParseResult) (e : CalendarEvent)
    (h : parseNaturalLanguage now s = .ok r) (he : e ∈ r.events) : e.title ≠ "" := by
  rcases parse_ok_shape now s r h with rfl | rfl | ⟨d, hb, rfl⟩
  · cases he
  · cases he
  · rcases List.mem_singleton.mp he with rfl
    intro htitle
    have hl : extractTitle (trimStr s.data) = [] := by
      have hdata := congrArg String.data htitle
      simpa using hdata
    exact extractTitle_ne_nil (trimStr_trimStr_ne hb) hl

theorem claim_C9_witness : (CalendarEvent.mk "tomorrow" "1970-01-02" none).title ≠ "" :=
  claim_C9 0 "tomorrow" ⟨[⟨"tomorrow", "1970-01-02", none⟩], none⟩
    ⟨"tomorrow", "1970-01-02", none⟩ rfl (by simp)

/-- C10: every produced event carries exactly a title, a date and possibly a
    time, all coming from the two extractors; the embedded `CalendarEvent`
    (mirroring `types.ts`) declares no `endTime` field and `extractTime`
    returns a single optional time, so no event ever carries an end time. -/
theorem claim_C10 (now : Int) (s : String) (r : ParseResult)
    (h : parseNaturalLanguage now s = .ok r) :
    r.events = [] ∨
      ∃ d, r.events = [CalendarEvent.mk (String.mk (extractTitle (trimStr s.data))) d
        (extractTime (trimStr s.data))] := by
  rcases parse_ok_shape now s r h with rfl | rfl | ⟨d, hb, rfl⟩
  · left; rfl
  · left; rfl
  · right; exact ⟨d, rfl⟩

theorem claim_C10_witness :
    (ParseResult.mk [⟨"Gym", "1970-01-02", some "08:00"⟩] none).events = [] ∨
      ∃ d, (ParseResult.mk [⟨"Gym", "1970-01-02", some "08:00"⟩] none).events =
        [CalendarEvent.mk (String.mk (extractTitle (trimStr "Gym tomorrow at 8am".data))) d
          (extractTime (trimStr "Gym tomorrow at 8am".data))] :=
  claim_C10 0 "Gym tomorrow at 8am" ⟨[⟨"Gym", "1970-01-02", some "08:00"⟩], none⟩ rfl

/-- A well-formed 24-hour clock string in the sense of the specification:
    exactly `HH:MM` with hour 00..23 and minute 00..59. -/
def isValid24h (t : String) : Bool :=
  match t.data with
  | [a, b, c, d, e] =>
    isDigitChar a && isDigitChar b && c = ':' && isDigitChar d && isDigitChar e &&
      decide (digitVal a * 10 + digitVal b < 24) && decide (digitVal d * 10 + digitVal e < 60)
  | _ => false

set_option maxRecDepth 8000 in
/-- In-range hour and minute always format to a valid 24-hour string. -/
theorem valid_format : ∀ hh < 24, ∀ mm < 60,
    isValid24h (String.mk (pad2 hh ++ ':' :: pad2 mm)) = true := by decide

/-- C4 (counterexample): the claim that every produced `time` is a valid
    24-hour `HH:MM` fails — the time regex accepts any 1-2 digit hour and the
    code performs no range validation, so "today at 99" produces the time
    "99:00", which is not a valid 24-hour time. -/
theorem claim_C4_counterexample :
    parseNaturalLanguage 0 "today at 99" =
      .ok ⟨[⟨"today at 99", "1970-01-01", some "99:00"⟩], none⟩ ∧
    isValid24h "99:00" = false :=
  ⟨rfl, rfl⟩

/-- C4 (amended): every produced `time` is the zero-padded rendering of the
    meridiem-normalized matched hour and the matched minute (defaulting to
    00), and it is a valid 24-hour `HH:MM` whenever the matched hour is at
    most 23 and the matched minute at most 59 — the parser itself performs no
    range validation. -/
theorem claim_C4_amended (now : Int) (s : String) (r : ParseResult) (e : CalendarEvent)
    (t : String) (h : parseNaturalLanguage now s = .ok r) (he : e ∈ r.events)
    (ht : e.time = some t) :
    ∃ h0 m0 mer,
      scanP tryAtTime ((lowerStr (trimStr s.data)).length + 1) false
        (lowerStr (trimStr s.data)) = some (h0, m0, mer) ∧
      t = String.mk (pad2 (normHour h0 mer) ++ ':' :: pad2 (m0.getD 0)) ∧
      (h0 ≤ 23 → m0.getD 0 ≤ 59 → isValid24h t = true) := by
  rcases parse_ok_shape now s r h with rfl | rfl | ⟨d, hb, rfl⟩
  · cases he
  · cases he
  · rcases List.mem_singleton.mp he with rfl
    replace ht : extractTime (trimStr s.data) = some t := ht
    simp only [extractTime] at ht
    cases hs : scanP tryAtTime ((lowerStr (trimStr s.data)).length + 1) false
        (lowerStr (trimStr s.data)) with
    | none => rw [hs] at ht; cases ht
    | some p =>
      obtain ⟨h0, m0, mer⟩ := p
      rw [hs] at ht
      dsimp only at ht
      simp only [Option.some.injEq] at ht
      subst ht
      refine ⟨h0, m0, mer, rfl, rfl, fun hh hm => ?_⟩
      exact valid_format (normHour h0 mer) (by have := normHour_le (h := h0) mer hh; omega)
        (m0.getD 0) (by omega)

theorem claim_C4_witness : isValid24h "16:30" = true := by
  obtain ⟨h0, m0, mer, hs, ht, hv⟩ := claim_C4_amended 0 "today at 4:30pm"
    ⟨[⟨"today at 4:30pm", "1970-01-01", some "16:30"⟩], none⟩
    ⟨"today at 4:30pm", "1970-01-01", some "16:30"⟩ "16:30" rfl (by simp) rfl
  have hc : some (h0, m0, mer) = some (4, some 30, some Mer.pm) := hs.symm.trans rfl
  simp only [Option.some.injEq, Prod.mk.injEq] at hc
  obtain ⟨rfl, rfl, rfl⟩ := hc
  exact hv (by decide) (by decide)

/-- C7: meridiem normalization — pm adds 12 to hours 1..11 while 12pm stays
    12, am sends 12 to 0 and leaves other hours unchanged, and a bare
    (24-hour) value passes through; the three example inputs produce times
    12:00, 00:00 and 14:00 (the omitted minute defaulting to 00). -/
theorem claim_C7 (now : Int) (h1 : -99999999 ≤ now) (h2 : now ≤ 99999999) :
    (∀ h, 1 ≤ h → h ≤ 11 → normHour h (some Mer.pm) = h + 12) ∧
    normHour 12 (some Mer.pm) = 12 ∧
    normHour 12 (some Mer.am) = 0 ∧
    (∀ h, h ≠ 12 → normHour h (some Mer.am) = h) ∧
    (∀ h, normHour h none = h) ∧
    (∃ e, parseNaturalLanguage now "Call today at 12pm" = .ok ⟨[e], none⟩ ∧
      e.time = some "12:00") ∧
    (∃ e, parseNaturalLanguage now "Alarm today at 12am" = .ok ⟨[e], none⟩ ∧
      e.time = some "00:00") ∧
    (∃ e, parseNaturalLanguage now "Lunch tomorrow at 14:00" = .ok ⟨[e], none⟩ ∧
      e.time = some "14:00") := by
  have hnow := toISODate_ok (t := now) (by omega) (by omega)
  have hnow1 := toISODate_ok (t := now + 1) (by omega) (by omega)
  refine ⟨?_, rfl, rfl, ?_, ?_, ?_, ?_, ?_⟩
  · intro h ha hb
    unfold normHour
    rw [if_pos]
    exact ⟨rfl, by omega⟩
  · intro h ha
    unfold normHour
    rw [if_neg (by simp), if_neg (by simp [ha])]
  · intro h
    unfold normHour
    rw [if_neg (by simp), if_neg (by simp)]
  · refine ⟨⟨"Call", String.mk (toISODateCore now), some "12:00"⟩, ?_, rfl⟩
    have hrel : resolveRelativeDate now (trimStr "Call today at 12pm".data)
        = .ok (some (String.mk (toISODateCore now))) := by
      have : resolveRelativeDate now (trimStr "Call today at 12pm".data)
          = (toISODate now).map some := rfl
      rw [this, hnow]
      rfl
    rw [parse_nonblank now _ (by decide) hrel rfl]
    rfl
  · refine ⟨⟨"Alarm", String.mk (toISODateCore now), some "00:00"⟩, ?_, rfl⟩
    have hrel : resolveRelativeDate now (trimStr "Alarm today at 12am".data)
        = .ok (some (String.mk (toISODateCore now))) := by
      have : resolveRelativeDate now (trimStr "Alarm today at 12am".data)
          = (toISODate now).map some := rfl
      rw [this, hnow]
      rfl
    rw [parse_nonblank now _ (by decide) hrel rfl]
    rfl
  · refine ⟨⟨"Lunch", String.mk (toISODateCore (now + 1)), some "14:00"⟩, ?_, rfl⟩
    have hrel : resolveRelativeDate now (trimStr "Lunch tomorrow at 14:00".data)
        = .ok (some (String.mk (toISODateCore (now + 1)))) := by
      have : resolveRelativeDate now (trimStr "Lunch tomorrow at 14:00".data)
          = (toISODate (now + 1)).map some := rfl
      rw [this, hnow1]
      rfl
    rw [parse_nonblank now _ (by decide) hrel rfl]
    rfl

theorem claim_C7_witness :
    normHour 11 (some Mer.pm) = 23 ∧
    (∃ e, parseNaturalLanguage 0 "Alarm today at 12am" = .ok ⟨[e], none⟩ ∧
      e.time = some "00:00") :=
  ⟨((claim_C7 0 (by decide) (by decide)).1 11 (by decide) (by decide)).trans (by norm_num),
   (claim_C7 0 (by decide) (by decide)).2.2.2.2.2.2.1⟩

/-- The relative resolver explicitly, when none of its five patterns
    matches. -/
theorem resolveRelativeDate_none (now : Int) (t : List Char)
    (h1 : hasWord "today".data (lowerStr t) = false)
    (h2 : hasWord "tomorrow".data (lowerStr t) = false)
    (h3 : hasWord "yesterday".data (lowerStr t) = false)
    (h4 : scanP tryInDays ((lowerStr t).length + 1) false (lowerStr t) = none)
    (h5 : scanP tryNextWeekday ((lowerStr t).length + 1) false (lowerStr t) = none) :
    resolveRelativeDate now t = .ok none := by
  simp only [resolveRelativeDate, h1, h2, h3, h4, h5, Bool.false_eq_true, if_false]

/-- The absolute resolver explicitly on the ISO branch. -/
theorem resolveAbsoluteDate_iso (now : Int) (t : List Char) {y m d : Nat}
    (hI : scanP tryISO ((lowerStr t).length + 1) false (lowerStr t) = some (y, m, d)) :
    resolveAbsoluteDate now t = (toISODate (jsMkDate y ((m : Int) - 1) d)).map some := by
  simp only [resolveAbsoluteDate, hI]

/-- The absolute resolver explicitly on the US-numeric branch with an
    explicit year. -/
theorem resolveAbsoluteDate_us (now : Int) (t : List Char) {m d y : Nat}
    (hI : scanP tryISO ((lowerStr t).length + 1) false (lowerStr t) = none)
    (hU : scanP tryUS ((lowerStr t).length + 1) false (lowerStr t) = some (m, d, some y)) :
    resolveAbsoluteDate now t = (toISODate (jsMkDate y ((m : Int) - 1) d)).map some := by
  simp only [resolveAbsoluteDate, hI, hU]

/-- The absolute resolver explicitly on the month-day branch with an
    explicit year. -/
theorem resolveAbsoluteDate_md (now : Int) (t : List Char) {mi d y : Nat}
    (hI : scanP tryISO ((lowerStr t).length + 1) false (lowerStr t) = none)
    (hU : scanP tryUS ((lowerStr t).length + 1) false (lowerStr t) = none)
    (hM : scanP tryMonthDay ((lowerStr t).length + 1) false (lowerStr t)
      = some (mi, d, some y)) :
    resolveAbsoluteDate now t = (toISODate (jsMkDate y mi d)).map some := by
  simp only [resolveAbsoluteDate, hI, hU, hM]

/-- The absolute resolver explicitly on the day-month branch with the year
    omitted: the year defaults to the current one. -/
theorem resolveAbsoluteDate_dm_noyr (now : Int) (t : List Char) {d mi : Nat}
    (hI : scanP tryISO ((lowerStr t).length + 1) false (lowerStr t) = none)
    (hU : scanP tryUS ((lowerStr t).length + 1) false (lowerStr t) = none)
    (hM : scanP tryMonthDay ((lowerStr t).length + 1) false (lowerStr t) = none)
    (hD : scanP tryDayMonth ((lowerStr t).length + 1) false (lowerStr t)
      = some (d, mi, none)) :
    resolveAbsoluteDate now t = (toISODate (jsMkDate (getFullYear now) mi d)).map some := by
  simp only [resolveAbsoluteDate, hI, hU, hM, hD]

set_option maxHeartbeats 2000000 in
/-- C5: the four absolute-date example inputs round-trip — the ISO, US
    numeric and month-day-year forms to their literal dates, and the
    year-less day-month form to the current year's March 15. -/
theorem claim_C5 (now : Int) (h1 : 0 ≤ now) (h2 : now ≤ 2786859) :
    parseNaturalLanguage now "Flight 2025-06-20" =
      .ok ⟨[⟨"Flight", "2025-06-20", none⟩], none⟩ ∧
    parseNaturalLanguage now "Event 06/20/2025" =
      .ok ⟨[⟨"Event", "2025-06-20", none⟩], none⟩ ∧
    parseNaturalLanguage now "Dentist March 15 2025" =
      .ok ⟨[⟨"Dentist", "2025-03-15", none⟩], none⟩ ∧
    parseNaturalLanguage now "Dentist 15 March" =
      .ok ⟨[⟨"Dentist", String.mk (pad4 (getFullYear now).toNat ++ "-03-15".data),
        none⟩], none⟩ := by
  refine ⟨?_, ?_, ?_, ?_⟩
  · have hrel : resolveRelativeDate now (trimStr "Flight 2025-06-20".data) = .ok none :=
      resolveRelativeDate_none now _ rfl rfl rfl rfl rfl
    have habs : resolveAbsoluteDate now (trimStr "Flight 2025-06-20".data)
        = .ok (some "2025-06-20") := by
      rw [resolveAbsoluteDate_iso now (trimStr "Flight 2025-06-20".data) rfl]
      rfl
    rw [parse_nonblank now _ (by decide) hrel habs]
    rfl
  · have hrel : resolveRelativeDate now (trimStr "Event 06/20/2025".data) = .ok none :=
      resolveRelativeDate_none now _ rfl rfl rfl rfl rfl
    have habs : resolveAbsoluteDate now (trimStr "Event 06/20/2025".data)
        = .ok (some "2025-06-20") := by
      rw [resolveAbsoluteDate_us now (trimStr "Event 06/20/2025".data) rfl rfl]
      rfl
    rw [parse_nonblank now _ (by decide) hrel habs]
    rfl
  · have hrel : resolveRelativeDate now (trimStr "Dentist March 15 2025".data) = .ok none :=
      resolveRelativeDate_none now _ rfl rfl rfl rfl rfl
    have habs : resolveAbsoluteDate now (trimStr "Dentist March 15 2025".data)
        = .ok (some "2025-03-15") := by
      rw [resolveAbsoluteDate_md now (trimStr "Dentist March 15 2025".data) rfl rfl rfl]
      rfl
    rw [parse_nonblank now _ (by decide) hrel habs]
    rfl
  · obtain ⟨hyl, hyu⟩ := getFullYear_bound now h1 h2
    have hjs : jsMkDate (getFullYear now) 2 15 = civilToDay (getFullYear now) 3 15 := by
      simp only [jsMkDate]
      rw [if_neg (by omega)]
      norm_num
    have hbound := jsMkDate_bound (getFullYear now) 2 15 (by omega) (by omega) (by omega)
      (by omega) (by omega) (by omega)
    have hcore : toISODateCore (jsMkDate (getFullYear now) 2 15)
        = pad4 (getFullYear now).toNat ++ "-03-15".data := by
      rw [hjs]
      unfold toISODateCore
      rw [round_mar15]
      dsimp only
      rw [if_pos (by constructor <;> omega), List.append_assoc]
      congr 1
    have hrel : resolveRelativeDate now (trimStr "Dentist 15 March".data) = .ok none :=
      resolveRelativeDate_none now _ rfl rfl rfl rfl rfl
    have habs : resolveAbsoluteDate now (trimStr "Dentist 15 March".data)
        = .ok (some (String.mk (pad4 (getFullYear now).toNat ++ "-03-15".data))) := by
      rw [resolveAbsoluteDate_dm_noyr now (trimStr "Dentist 15 March".data) rfl rfl rfl rfl]
      have hm2 : ((2 : Nat) : Int) = (2 : Int) := rfl
      have hd15 : ((15 : Nat) : Int) = (15 : Int) := rfl
      have hdv : digitVal (lowerChar '1') * 10 + digitVal (lowerChar '5') = 15 := rfl
      rw [hm2, hdv, hd15, toISODate_ok hbound.1 hbound.2, hcore]
      rfl
    rw [parse_nonblank now _ (by decide) hrel habs]
    rfl

set_option maxHeartbeats 2000000 in
theorem claim_C5_witness :
    parseNaturalLanguage 20372 "Dentist 15 March" =
      .ok ⟨[⟨"Dentist", String.mk (pad4 (getFullYear 20372).toNat ++ "-03-15".data),
        none⟩], none⟩ ∧
    String.mk (pad4 (getFullYear 20372).toNat ++ "-03-15".data) = "2025-03-15" :=
  ⟨(claim_C5 20372 (by decide) (by decide)).2.2.2, rfl⟩

/-- C6: whenever the lowered trimmed input matches `next <weekday>` and none
    of the higher-precedence relative patterns (today, tomorrow, yesterday,
    in N days), the parsed date lies `((target - today + 7) mod 7) or 7` days
    after `now` — an offset in 1..7, never 0 — and falls on the named
    weekday. -/
theorem claim_C6 (now : Int) (s : String) (target : Int)
    (hn1 : 0 ≤ now) (hn2 : now ≤ 2786859)
    (h1 : hasWord "today".data (lowerStr (trimStr s.data)) = false)
    (h2 : hasWord "tomorrow".data (lowerStr (trimStr s.data)) = false)
    (h3 : hasWord "yesterday".data (lowerStr (trimStr s.data)) = false)
    (h4 : scanP tryInDays ((lowerStr (trimStr s.data)).length + 1) false
        (lowerStr (trimStr s.data)) = none)
    (h5 : scanP tryNextWeekday ((lowerStr (trimStr s.data)).length + 1) false
        (lowerStr (trimStr s.data)) = some target) :
    ∃ k e, parseNaturalLanguage now s = .ok ⟨[e], none⟩ ∧
      e.date = String.mk (toISODateCore (now + k)) ∧
      weekdayOf (now + k) = target ∧
      k = (if (target - weekdayOf now + 7) % 7 = 0 then 7
            else (target - weekdayOf now + 7) % 7) ∧
      1 ≤ k ∧ k ≤ 7 := by
  have hne : trimStr s.data ≠ [] := by
    intro hq
    rw [hq] at h5
    have h0 : scanP tryNextWeekday ((lowerStr ([] : List Char)).length + 1) false
        (lowerStr []) = none := rfl
    rw [h0] at h5
    cases h5
  have htb : 0 ≤ target ∧ target ≤ 6 :=
    scanP_prop (P := fun i : Int => 0 ≤ i ∧ i ≤ 6) tryNextWeekday
      (fun prev s x n hx => tryNextWeekday_bound hx) _ _ _ _ h5
  obtain ⟨k, hkdef⟩ : ∃ k : Int,
      k = (if (target - weekdayOf now + 7) % 7 = 0 then 7
            else (target - weekdayOf now + 7) % 7) := ⟨_, rfl⟩
  have hk1 : 1 ≤ k ∧ k ≤ 7 := by
    simp only [weekdayOf] at hkdef
    constructor <;> (rw [hkdef]; split_ifs <;> omega)
  have hrange := toISODate_ok (t := now + k) (by omega) (by omega)
  have hrel : resolveRelativeDate now (trimStr s.data)
      = .ok (some (String.mk (toISODateCore (now + k)))) := by
    have h0 : resolveRelativeDate now (trimStr s.data)
        = (toISODate (now + k)).map some := by
      simp only [resolveRelativeDate, h1, h2, h3, h4, h5, Bool.false_eq_true, if_false]
      rw [← hkdef]
    rw [h0, hrange]
    rfl
  obtain ⟨v, habs⟩ := resolveAbsoluteDate_ok now (trimStr s.data) hn1 hn2
  refine ⟨k, ⟨String.mk (extractTitle (trimStr s.data)),
    String.mk (toISODateCore (now + k)), extractTime (trimStr s.data)⟩, ?_, rfl, ?_,
    hkdef, hk1.1, hk1.2⟩
  · rw [parse_nonblank now s hne hrel habs]
  · simp only [weekdayOf] at hkdef ⊢
    rw [hkdef]
    split_ifs with hz <;> omega

set_option maxHeartbeats 2000000 in
theorem claim_C6_witness :
    ∃ k e, parseNaturalLanguage 20372 "Gym next Monday" = .ok ⟨[e], none⟩ ∧
      e.date = String.mk (toISODateCore (20372 + k)) ∧
      weekdayOf (20372 + k) = 1 ∧
      k = (if (1 - weekdayOf 20372 + 7) % 7 = 0 then 7
            else (1 - weekdayOf 20372 + 7) % 7) ∧
      1 ≤ k ∧ k ≤ 7 :=
  claim_C6 20372 "Gym next Monday" 1 (by decide) (by decide) rfl rfl rfl rfl rfl

end NLP
